import Mathlib

/-!
Verification development for the Rootlink tunnel relay
(src/server/index.js, src/client/index.js), via a shallow embedding:
strings are `List Char`, byte payloads are `List Nat` (each < 256),
the event-driven handlers become explicit state-passing functions.
-/

namespace Rootlink

/-- Characters of a string literal, the representation used for all text. -/
abbrev Str := List Char

/-- Naive substring search: `pat` occurs contiguously in the argument. -/
def containsSub (pat : Str) : Str → Bool
  | [] => pat.isEmpty
  | c :: tl => pat.isPrefixOf (c :: tl) || containsSub pat tl

theorem isPrefixOf_append_of {p s : Str} (t : Str) (h : p.isPrefixOf s = true) :
    p.isPrefixOf (s ++ t) = true := by
  induction p generalizing s with
  | nil => simp [List.isPrefixOf]
  | cons c cs ih =>
    cases s with
    | nil => simp [List.isPrefixOf] at h
    | cons d ds =>
      simp only [List.isPrefixOf, List.cons_append, Bool.and_eq_true] at h ⊢
      exact ⟨h.1, ih h.2⟩

theorem containsSub_append_left {pat a : Str} (b : Str)
    (h : containsSub pat a = true) : containsSub pat (a ++ b) = true := by
  induction a with
  | nil =>
    simp only [containsSub, List.isEmpty_iff] at h
    subst h
    cases b with
    | nil => simp [containsSub]
    | cons c tl => simp [containsSub, List.isPrefixOf]
  | cons c tl ih =>
    simp only [containsSub, Bool.or_eq_true] at h ⊢
    rcases h with h | h
    · exact Or.inl (isPrefixOf_append_of b h)
    · exact Or.inr (ih h)

/- ### Client reconnect backoff (src/client/index.js lines 116-127, 169-176) -/

/-- Model of `reconnectDelay = Math.min(reconnectDelay * 1.5, 15000)`
(src/client/index.js line 174), over exact rationals. -/
def bumpDelay (d : ℚ) : ℚ := min (d * 1.5) 15000

/-- Model of the close handler's use of the delay: the reconnect is scheduled
with the current `reconnectDelay` (line 173), and only afterwards the stored
delay is bumped (line 174). -/
def closeUses (d : ℚ) : ℚ × ℚ := (d, bumpDelay d)

/-- Connection lifecycle events that touch `reconnectDelay`. -/
inductive ConnEvent
  | opened
  | closedEv
deriving DecidableEq

/-- `reconnectDelay` after an event: reset to 2000 on `open`
(src/client/index.js line 125), bumped on `close` (line 174). -/
def delayAfter (d : ℚ) : ConnEvent → ℚ
  | .opened => 2000
  | .closedEv => bumpDelay d

/-- The delay used for the `n`-th reconnect attempt under repeated immediate
failures: the initial value is 2000 (line 117) and each close bumps it. -/
def usedDelay : Nat → ℚ
  | 0 => 2000
  | n + 1 => bumpDelay (usedDelay n)

/- ### Server tunnel registry and request dispatch (src/server/index.js) -/

/-- One registry entry: `{ ws, pendingRequests }` (line 123), with the
socket's readyState abstracted to whether it is `WebSocket.OPEN`. -/
structure Tunnel where
  wsOpen : Bool
  pendingRequests : List String
deriving DecidableEq

/-- The `tunnels` map (line 16), as an association list keyed by tunnel id. -/
structure ServerState where
  tunnels : List (String × Tunnel)
deriving DecidableEq

/-- `tunnels.get(tunnelId)`. -/
def lookupTunnel (st : ServerState) (tid : String) : Option Tunnel :=
  (st.tunnels.find? (fun e => e.1 = tid)).map (fun e => e.2)

/-- Replace the entry for `tid` (the single mutation the dispatch path does). -/
def setTunnel (st : ServerState) (tid : String) (t : Tunnel) : ServerState :=
  ⟨st.tunnels.map (fun e => if e.1 = tid then (e.1, t) else e)⟩

/-- The literal 503 page sent when the tunnel is absent or not open
(src/server/index.js lines 49-56), with the tunnel id interpolated. -/
def offlineBody (tid : Str) : Str :=
  ("<!DOCTYPE html>\n<html>\n  <head><title>Rootlink — Tunnel Offline</title></head>\n  <body style=\"background:#0c0c0c;color:#f0f0f0;font-family:system-ui;display:flex;align-items:center;justify-content:center;height:100vh;margin:0;flex-direction:column;gap:8px\">\n    <h2 style=\"margin:0;font-size:18px;font-weight:600\">Tunnel Offline</h2>\n    <p style=\"color:#888;margin:0;font-size:14px\">Tunnel <code style=\"color:#4ade80\">".data)
  ++ tid ++
  ("</code> is not connected.<br>Run the CLI client to activate it.</p>\n  </body>\n</html>".data)

/-- Outcome of one run of the `app.all('/t/:tunnelId*')` handler. -/
inductive DispatchResult
  | offline (status : Nat) (body : Str)
  | forwarded (reqId : String)
  | sendFailed (status : Nat) (body : Str)
deriving DecidableEq

/-- The `setTimeout` deadline constant (src/server/index.js line 85). -/
def requestTimeoutMs : Nat := 30000

/-- Model of the tunneled-request handler (src/server/index.js lines 44-96):
offline guard, PendingRequest insertion, and the net effect of the
`ws.send` try/catch (on a synchronous send failure the entry just added is
removed again, so the state is unchanged). -/
def handleTunnelRequest (st : ServerState) (tid : String) (reqId : String)
    (sendOk : Bool) : ServerState × DispatchResult :=
  match lookupTunnel st tid with
  | none => (st, .offline 503 (offlineBody tid.data))
  | some t =>
    if !t.wsOpen then
      (st, .offline 503 (offlineBody tid.data))
    else if sendOk then
      (setTunnel st tid { t with pendingRequests := t.pendingRequests ++ [reqId] },
       .forwarded reqId)
    else
      (st, .sendFailed 502 ("Failed to forward request to tunnel client.".data))

/-- Model of the 30-second deadline callback (src/server/index.js lines 80-85):
fire against the captured tunnel object; if the request is still pending,
remove it and answer 504, otherwise do nothing. -/
def timeoutFire (t : Tunnel) (reqId : String) : Tunnel × Option (Nat × Str) :=
  if reqId ∈ t.pendingRequests then
    ({ t with pendingRequests := t.pendingRequests.erase reqId },
     some (504, ("Gateway Timeout".data)))
  else
    (t, none)

/-- `connected: !!tunnels.get(tunnelId)` (src/server/index.js line 40). -/
def statusConnected (st : ServerState) (tid : String) : Bool :=
  (lookupTunnel st tid).isSome

/- ### Connection replacement for one tunnel id (src/server/index.js
lines 113-124 and 177-187), tracking connection objects individually. -/

/-- One WebSocket connection object with its own `pendingRequests` map. -/
structure ConnObj where
  wsOpen : Bool
  pending : List String
deriving DecidableEq

/-- State of a single tunnel id: which connection object the `tunnels` map
currently names (if any), plus every connection object ever created for the
id, keyed by an identity token. -/
structure RegistryState where
  registry : Option Nat
  conns : List (Nat × ConnObj)
deriving DecidableEq

/-- The connection object with identity `c` (absent objects read as closed
and empty). -/
def getConn (s : RegistryState) (c : Nat) : ConnObj :=
  ((s.conns.find? (fun e => e.1 = c)).map (fun e => e.2)).getD ⟨false, []⟩

/-- Point update of one connection object. -/
def setConn (s : RegistryState) (c : Nat) (o : ConnObj) : RegistryState :=
  { s with conns := s.conns.map (fun e => if e.1 = c then (e.1, o) else e) }

/-- `wss.on('connection')` registration (line 123): a fresh connection
object is created and `tunnels.set(tunnelId, ...)` repoints the registry
entry at it; the prior object, if any, is left untouched. -/
def register (s : RegistryState) (c : Nat) : RegistryState :=
  ⟨some c, s.conns ++ [(c, ⟨true, []⟩)]⟩

/-- Dispatch of a public request against this tunnel id (lines 44-78): the
PendingRequest lands in the pending map of whichever connection object the
registry currently names. -/
def dispatchReq (s : RegistryState) (r : String) : RegistryState :=
  match s.registry with
  | none => s
  | some c =>
    if (getConn s c).wsOpen then
      setConn s c { getConn s c with pending := (getConn s c).pending ++ [r] }
    else s

/-- The close handler of connection `c` (lines 177-187): the socket is now
closed; the handler body looks the tunnel up by tunnel id —
`tunnels.get(tunnelId)` — and fails every pending request of whatever
object that lookup returns (503 "Tunnel disconnected."), then deletes the
registry entry. The pending maps themselves are not cleared. -/
def closeConn (s : RegistryState) (c : Nat) : RegistryState × List (String × Nat) :=
  let s1 := setConn s c { getConn s c with wsOpen := false }
  match s1.registry with
  | none => (s1, [])
  | some c0 =>
    ({ s1 with registry := none }, (getConn s1 c0).pending.map (fun r => (r, 503)))

/- ### HTML path rewriter (src/server/index.js lines 20-26) -/

/-- Leftmost global substitution, the semantics of JavaScript
`String.replace` with a `/g` regex: scan left to right; at a match the
matcher yields `(k, repl)` meaning `1 + k` characters are consumed and
`repl` is emitted, and scanning resumes after the consumed characters;
otherwise the character is copied. -/
def gsubFuel (m : Char → Str → Option (Nat × Str)) : Nat → Str → Str
  | _, [] => []
  | 0, s => s
  | fuel + 1, c :: cs =>
    match m c cs with
    | some (k, repl) => repl ++ gsubFuel m fuel (cs.drop k)
    | none => c :: gsubFuel m fuel cs

/-- `gsub m s`: the global substitution itself (the fuel `s.length` always
suffices because every match consumes at least one character). -/
def gsub (m : Char → Str → Option (Nat × Str)) (s : Str) : Str :=
  gsubFuel m s.length s

theorem gsubFuel_stable (m : Char → Str → Option (Nat × Str)) :
    ∀ (f₁ f₂ : Nat) (s : Str), s.length ≤ f₁ → s.length ≤ f₂ →
      gsubFuel m f₁ s = gsubFuel m f₂ s := by
  intro f₁
  induction f₁ with
  | zero =>
    intro f₂ s h₁ _
    cases s with
    | nil => cases f₂ <;> rfl
    | cons c cs => simp at h₁
  | succ f ih =>
    intro f₂ s h₁ h₂
    cases s with
    | nil => cases f₂ <;> rfl
    | cons c cs =>
      cases f₂ with
      | zero => simp at h₂
      | succ g =>
        simp only [gsubFuel]
        cases hm : m c cs with
        | none =>
          simp only [List.length_cons] at h₁ h₂
          rw [ih g cs (by omega) (by omega)]
        | some kr =>
          obtain ⟨k, repl⟩ := kr
          simp only [List.length_cons] at h₁ h₂
          dsimp only
          rw [ih g (cs.drop k) (by simp only [List.length_drop]; omega)
            (by simp only [List.length_drop]; omega)]

theorem gsub_nil (m : Char → Str → Option (Nat × Str)) : gsub m [] = [] := rfl

theorem gsub_cons_none {m : Char → Str → Option (Nat × Str)} {c : Char}
    {cs : Str} (h : m c cs = none) : gsub m (c :: cs) = c :: gsub m cs := by
  simp only [gsub, List.length_cons, gsubFuel, h]

theorem gsub_cons_some {m : Char → Str → Option (Nat × Str)} {c : Char}
    {cs : Str} {k : Nat} {repl : Str} (h : m c cs = some (k, repl)) :
    gsub m (c :: cs) = repl ++ gsub m (cs.drop k) := by
  simp only [gsub, List.length_cons, gsubFuel, h]
  rw [gsubFuel_stable m cs.length (cs.drop k).length (cs.drop k)
    (by simp only [List.length_drop]; omega) (le_refl _)]

/-- First-occurrence substitution, the semantics of `String.replace` with a
non-global regex. -/
def replaceFirst (m : Char → Str → Option (Nat × Str)) : Str → Str
  | [] => []
  | c :: cs =>
    match m c cs with
    | some (k, repl) => repl ++ cs.drop k
    | none => c :: replaceFirst m cs

/-- The matcher applied at the head of a string. -/
def matchAt (m : Char → Str → Option (Nat × Str)) : Str → Option (Nat × Str)
  | [] => none
  | c :: cs => m c cs

/-- `m` matches at no position strictly inside `p` when `p` is followed by
`t`. -/
def noMatchIn (m : Char → Str → Option (Nat × Str)) : Str → Str → Bool
  | [], _ => true
  | c :: cs, t => (m c (cs ++ t)).isNone && noMatchIn m cs t

/-- The character class `[\w-]` of the `data-*` alternative: JavaScript
`\w` is `[A-Za-z0-9_]`. -/
def wordDash (c : Char) : Bool :=
  c.isAlpha || c.isDigit || c = '_' || c = '-'

/-- Parse of the attribute-name alternation
`src|href|action|content|data-[\w-]+` at the head of a string, returning
the name and the remainder (the alternatives start with distinct
characters, so at most one can apply at a position). -/
def parseAttrName (s : Str) : Option (Str × Str) :=
  if ("src".data).isPrefixOf s then some (("src".data), s.drop 3)
  else if ("href".data).isPrefixOf s then some (("href".data), s.drop 4)
  else if ("action".data).isPrefixOf s then some (("action".data), s.drop 6)
  else if ("content".data).isPrefixOf s then some (("content".data), s.drop 7)
  else if ("data-".data).isPrefixOf s then
    match (s.drop 5).span wordDash with
    | ([], _) => none
    | (w, rest) => some (("data-".data) ++ w, rest)
  else none

/-- Matcher of `((?:src|href|action|content|data-[\w-]+)=["'])\/(?!\/)`
with replacement `$1<base>/` — the matched text with `base` inserted
before the slash. -/
def attrMatcher (base : Str) (c : Char) (cs : Str) : Option (Nat × Str) :=
  match parseAttrName (c :: cs) with
  | none => none
  | some (name, r) =>
    match r with
    | '=' :: q :: '/' :: r2 =>
      if (q = '"' || q = '\'') && !(r2.head? = some '/') then
        some (name.length + 2, name ++ '=' :: q :: base ++ ['/'])
      else none
    | _ => none

/-- Matcher of `url\(["']?\/(?!\/)` with replacement `url(<base>/` — note
the optional quote is consumed by the match but absent from the
replacement. -/
def urlMatcher (base : Str) (c : Char) (cs : Str) : Option (Nat × Str) :=
  match c, cs with
  | 'u', 'r' :: 'l' :: '(' :: r =>
    match r with
    | '"' :: '/' :: r2 =>
      if r2.head? = some '/' then none
      else some (5, ("url(".data) ++ base ++ ['/'])
    | '\'' :: '/' :: r2 =>
      if r2.head? = some '/' then none
      else some (5, ("url(".data) ++ base ++ ['/'])
    | '/' :: r2 =>
      if r2.head? = some '/' then none
      else some (4, ("url(".data) ++ base ++ ['/'])
    | _ => none
  | _, _ => none

/-- Matcher of `(<head[^>]*>)/i` with replacement
`$1\n  <base href="<base>/">`. -/
def headMatcher (base : Str) (c : Char) (cs : Str) : Option (Nat × Str) :=
  match c, cs with
  | '<', h :: e :: a :: d :: r =>
    if h.toLower = 'h' && e.toLower = 'e' && a.toLower = 'a' && d.toLower = 'd' then
      match r.span (fun x => !(x = '>')) with
      | (mid, '>' :: _) =>
        some (5 + mid.length,
          '<' :: h :: e :: a :: d :: mid ++ '>' ::
            (("\n  <base href=\"".data) ++ base ++ ("/\">".data)))
      | _ => none
    else none
  | _, _ => none

/-- The fixed attribute names of the rewriting regex. -/
def attrFixed : List Str :=
  [("src".data), ("href".data), ("action".data), ("content".data)]

/-- The attribute names the rewriting regex recognizes: one of the fixed
four, or `data-` followed by a nonempty `[\w-]+` run. -/
def AttrName (name : Str) : Prop :=
  name ∈ attrFixed ∨
  ∃ w, w ≠ [] ∧ (∀ c ∈ w, wordDash c = true) ∧ name = ("data-".data) ++ w

/-- The injected path prefix `/t/<tunnelId>`. -/
def tunnelBase (tid : Str) : Str := ("/t/".data) ++ tid

/-- First replace of `rewriteHtml` (line 22): attribute values. -/
def rewriteAttrs (tid : Str) (html : Str) : Str :=
  gsub (attrMatcher (tunnelBase tid)) html

/-- Second replace of `rewriteHtml` (line 23): CSS `url(` references. -/
def rewriteUrls (tid : Str) (html : Str) : Str :=
  gsub (urlMatcher (tunnelBase tid)) html

/-- Third replace of `rewriteHtml` (line 24): `<base>` injection after the
first `<head[^>]*>` match. -/
def injectBase (tid : Str) (html : Str) : Str :=
  replaceFirst (headMatcher (tunnelBase tid)) html

/-- `rewriteHtml(html, tunnelId)` (src/server/index.js lines 20-26). -/
def rewriteHtml (html : Str) (tid : Str) : Str :=
  injectBase tid (rewriteUrls tid (rewriteAttrs tid html))

/- ### Base64 transport coding (client `Buffer#toString('base64')`,
relay `Buffer.from(body, 'base64')`) -/

/-- The standard base64 alphabet. -/
def b64Alphabet : Str :=
  ("ABCDEFGHIJKLMNOPQRSTUVWXYZabcdefghijklmnopqrstuvwxyz0123456789+/".data)

def b64Char (n : Nat) : Char := b64Alphabet.getD n ('A')

/-- Index of a character in the base64 alphabet (`=` and any other
character decode to nothing). -/
def b64Idx (c : Char) : Option Nat :=
  if 'A' ≤ c ∧ c ≤ 'Z' then some (c.toNat - 65)
  else if 'a' ≤ c ∧ c ≤ 'z' then some (c.toNat - 97 + 26)
  else if '0' ≤ c ∧ c ≤ '9' then some (c.toNat - 48 + 52)
  else if c = '+' then some 62
  else if c = '/' then some 63
  else none

/-- RFC 4648 base64 with padding, the encoding Node's
`Buffer#toString('base64')` produces. -/
def b64Encode : List Nat → Str
  | [] => []
  | [a] => [b64Char (a / 4), b64Char (a % 4 * 16), '=', '=']
  | [a, b] => [b64Char (a / 4), b64Char (a % 4 * 16 + b / 16), b64Char (b % 16 * 4), '=']
  | a :: b :: c :: rest =>
    b64Char (a / 4) :: b64Char (a % 4 * 16 + b / 16) ::
      b64Char (b % 16 * 4 + c / 64) :: b64Char (c % 64) :: b64Encode rest

/-- Reassemble bytes from 6-bit groups (a trailing group of 2 or 3 sextets
carries 1 or 2 bytes). -/
def sextetsToBytes : List Nat → List Nat
  | n1 :: n2 :: n3 :: n4 :: rest =>
    (n1 * 4 + n2 / 16) :: (n2 % 16 * 16 + n3 / 4) :: (n3 % 4 * 64 + n4) :: sextetsToBytes rest
  | [n1, n2, n3] => [n1 * 4 + n2 / 16, n2 % 16 * 16 + n3 / 4]
  | [n1, n2] => [n1 * 4 + n2 / 16]
  | _ => []

/-- Base64 decoding as Node's `Buffer.from(s, 'base64')` performs it on
well-formed input: alphabet characters are mapped to sextets (padding
contributes nothing) and the sextets are packed back into bytes. -/
def b64Decode (s : Str) : List Nat := sextetsToBytes (s.filterMap b64Idx)

/- ### UTF-8 (Node `buf.toString('utf8')` and `Buffer.byteLength`) -/

/-- UTF-8 encoding of one character. -/
def utf8EncodeChar (c : Char) : List Nat :=
  let n := c.toNat
  if n < 128 then [n]
  else if n < 2048 then [192 + n / 64, 128 + n % 64]
  else if n < 65536 then [224 + n / 4096, 128 + n / 64 % 64, 128 + n % 64]
  else [240 + n / 262144, 128 + n / 4096 % 64, 128 + n / 64 % 64, 128 + n % 64]

/-- UTF-8 encoding of a string. -/
def utf8Encode : Str → List Nat
  | [] => []
  | c :: tl => utf8EncodeChar c ++ utf8Encode tl

/-- Is a byte a UTF-8 continuation byte? -/
def utf8Cont (b : Nat) : Bool := 128 ≤ b && b < 192

/-- UTF-8 decoding with U+FFFD replacement of malformed sequences, the
behavior of `buf.toString('utf8')` (fuel-driven; `utf8Decode` below always
supplies enough fuel). -/
def utf8DecodeFuel : Nat → List Nat → Str
  | 0, _ => []
  | _, [] => []
  | fuel + 1, b :: bs =>
    if b < 128 then Char.ofNat b :: utf8DecodeFuel fuel bs
    else if b < 194 then Char.ofNat 65533 :: utf8DecodeFuel fuel bs
    else if b < 224 then
      match bs with
      | b2 :: rest =>
        if utf8Cont b2 then
          Char.ofNat ((b - 192) * 64 + (b2 - 128)) :: utf8DecodeFuel fuel rest
        else Char.ofNat 65533 :: utf8DecodeFuel fuel bs
      | [] => [Char.ofNat 65533]
    else if b < 240 then
      match bs with
      | b2 :: b3 :: rest =>
        if utf8Cont b2 && utf8Cont b3 &&
            (2048 ≤ (b - 224) * 4096 + (b2 - 128) * 64 + (b3 - 128)) &&
            ((b - 224) * 4096 + (b2 - 128) * 64 + (b3 - 128) < 55296 ||
              57343 < (b - 224) * 4096 + (b2 - 128) * 64 + (b3 - 128)) then
          Char.ofNat ((b - 224) * 4096 + (b2 - 128) * 64 + (b3 - 128)) :: utf8DecodeFuel fuel rest
        else Char.ofNat 65533 :: utf8DecodeFuel fuel bs
      | _ => Char.ofNat 65533 :: utf8DecodeFuel fuel bs
    else if b < 245 then
      match bs with
      | b2 :: b3 :: b4 :: rest =>
        if utf8Cont b2 && utf8Cont b3 && utf8Cont b4 &&
            (65536 ≤ (b - 240) * 262144 + (b2 - 128) * 4096 + (b3 - 128) * 64 + (b4 - 128)) &&
            ((b - 240) * 262144 + (b2 - 128) * 4096 + (b3 - 128) * 64 + (b4 - 128) < 1114112) then
          Char.ofNat ((b - 240) * 262144 + (b2 - 128) * 4096 + (b3 - 128) * 64 + (b4 - 128)) ::
            utf8DecodeFuel fuel rest
        else Char.ofNat 65533 :: utf8DecodeFuel fuel bs
      | _ => Char.ofNat 65533 :: utf8DecodeFuel fuel bs
    else Char.ofNat 65533 :: utf8DecodeFuel fuel bs

/-- UTF-8 decoding of a byte list. -/
def utf8Decode (bs : List Nat) : Str := utf8DecodeFuel bs.length bs

/- ### Relay-side delivery of a `response` message
(src/server/index.js lines 134-170) -/

/-- Lowercasing, for the content-type sniff. -/
def toLowerStr (s : Str) : Str := s.map Char.toLower

/-- `headers?.['content-type'] || ''`. -/
def headerValue (headers : List (Str × Str)) (key : Str) : Str :=
  ((headers.find? (fun e => e.1 = key)).map (fun e => e.2)).getD []

/-- `(headers?.['content-type'] || '').toLowerCase().includes('text/html')`
(src/server/index.js lines 154-155). -/
def isHtmlCT (headers : List (Str × Str)) : Bool :=
  containsSub ("text/html".data) (toLowerStr (headerValue headers ("content-type".data)))

/-- The body bytes the relay writes to the public HTTP exchange
(src/server/index.js lines 159-170): a falsy body means `res.end()`
(empty body); otherwise the base64 payload is decoded, and for HTML
content types the decoded text is additionally run through `rewriteHtml`
before being re-encoded. -/
def deliveredBytes (headers : List (Str × Str)) (body : Option Str) (tid : Str) : List Nat :=
  match body with
  | none => []
  | some b64 =>
    if b64 = [] then []
    else
      let buf := b64Decode b64
      if isHtmlCT headers then utf8Encode (rewriteHtml (utf8Decode buf) tid)
      else buf

/-- The client's encoding of the local service's body bytes
(src/client/index.js lines 88-94): `null` when empty, base64 otherwise. -/
def clientBody (bytes : List Nat) : Option Str :=
  if bytes = [] then none else some (b64Encode bytes)

/-- End-to-end body round trip: the local service returned `bytes` with
the given response headers; what does the public caller receive? -/
def tunnelBodyRoundTrip (headers : List (Str × Str)) (bytes : List Nat) (tid : Str) : List Nat :=
  deliveredBytes headers (clientBody bytes) tid

/- ### Client forwarding agent (src/client/index.js lines 54-113) and
message loop (lines 129-167) -/

/-- The value `forwardToLocal` resolves with. -/
structure FwdResponse where
  status : Nat
  headers : List (Str × Str)
  body : Option Str
deriving DecidableEq

/-- What happens when the client contacts the local service. -/
inductive LocalOutcome
  | ok (status : Nat) (headers : List (Str × Str)) (bytes : List Nat)
  | resError
  | connError (msg : Str)
deriving DecidableEq

/-- `forwardToLocal` (src/client/index.js lines 54-113): a target URL that
fails to parse resolves `{400, {}, null}` (lines 59-64); a response-stream
error resolves `{502, {}, null}` (line 96); a connection error synthesizes
a 502 with a plain-text body carried as base64 (lines 99-106); success
carries status, headers and the base64 of the body bytes, `null` when
empty (lines 88-94). -/
def forwardToLocal (urlOk : Bool) (outcome : LocalOutcome) : FwdResponse :=
  if !urlOk then ⟨400, [], none⟩
  else
    match outcome with
    | .ok s h bytes => ⟨s, h, if bytes = [] then none else some (b64Encode bytes)⟩
    | .resError => ⟨502, [], none⟩
    | .connError msg =>
      ⟨502, [(("content-type".data), ("text/plain".data))],
       some (b64Encode (utf8Encode (("Local server error: ".data) ++ msg)))⟩

/-- Message sent back up the tunnel by the client (lines 157-165). -/
structure OutMsg where
  type : Str
  reqId : String
  status : Nat
  headers : List (Str × Str)
  body : Option Str
deriving DecidableEq

/-- Messages the client can parse off the wire. -/
inductive InMsg
  | connected (tid : String)
  | request (reqId : String) (method : Str) (path : Str)
      (headers : List (Str × Str)) (body : Option Str)
  | otherMsg
deriving DecidableEq

/-- The client's `ws.on('message')` handler (src/client/index.js
lines 129-167): an unparseable frame returns silently (lines 130-135);
`connected` only prints the banner; a `request` is forwarded to the local
service and answered with a `response` message carrying the same reqId. -/
def clientHandleMessage (parsed : Except Str InMsg) (urlOk : Bool)
    (outcome : LocalOutcome) : Option OutMsg :=
  match parsed with
  | .error _ => none
  | .ok (.connected _) => none
  | .ok .otherMsg => none
  | .ok (.request reqId _ _ _ _) =>
    let r := forwardToLocal urlOk outcome
    some ⟨("response".data), reqId, r.status, r.headers, r.body⟩

/- ### Relay `ws.on('message')` handler (src/server/index.js
lines 130-175) -/

/-- Messages the relay can parse. -/
inductive WireMsg
  | response (reqId : String) (status : Nat) (headers : List (Str × Str))
      (body : Option Str)
  | otherMsg
deriving DecidableEq

/-- One response written to a public HTTP exchange. -/
structure Delivery where
  reqId : String
  status : Nat
  bytes : List Nat
deriving DecidableEq

/-- The relay's `ws.on('message')` handler: a parse failure is caught,
logged and swallowed (lines 172-174); a non-`response` type falls through
(line 134); a missing tunnel or unknown reqId is a silent no-op
(lines 137, 140); a matching `response` removes the PendingRequest and
delivers `status || 200` with the (possibly rewritten) body bytes. -/
def serverHandleMessage (tid : String) (parsed : Except Str WireMsg)
    (st : ServerState) : ServerState × List Delivery :=
  match parsed with
  | .error _ => (st, [])
  | .ok .otherMsg => (st, [])
  | .ok (.response reqId status headers body) =>
    match lookupTunnel st tid with
    | none => (st, [])
    | some t =>
      if reqId ∈ t.pendingRequests then
        (setTunnel st tid { t with pendingRequests := t.pendingRequests.erase reqId },
         [⟨reqId, if status = 0 then 200 else status, deliveredBytes headers body tid.data⟩])
      else (st, [])

/- ### Per-request terminal outcome machine (src/server/index.js
lines 78-96, 130-175, 177-187) -/

/-- The three terminal outcomes a PendingRequest can get. -/
inductive Outcome
  | delivered
  | timeout504
  | closed503
deriving DecidableEq

/-- State relevant to one tunnel's requests: whether the registry still
holds the entry (`tunnels.get(tunnelId)` truthy), whether the socket's
close event has fired, the pending map of the tunnel object (captured by
the handlers, and NOT cleared by the close handler), and which deadline
timers are armed. -/
structure PendState where
  entryPresent : Bool
  closed : Bool
  pending : List String
  armed : List String
deriving DecidableEq

/-- Events that can touch a PendingRequest. -/
inductive PendEvent
  | response (r : String)
  | timeoutEv (r : String)
  | closeEv
deriving DecidableEq

/-- One event step; `none` means the event cannot occur (a timer only
fires while armed — `clearTimeout` prevents later firing — and a socket
closes only once).

* `response r` (lines 134-170): if the registry lookup fails, return; if
  `reqId` is not pending, return; otherwise clear the timer, delete the
  PendingRequest and deliver.
* `timeoutEv r` (lines 80-85): the timer fires (disarming itself); if
  still pending, delete and answer 504, else no-op.
* `closeEv` (lines 177-187): if the registry still has the entry, clear
  every pending timer, answer 503 on every pending exchange, and delete
  the registry entry (the object's pending map itself is not cleared). -/
def pendStep (s : PendState) : PendEvent → Option (PendState × List (String × Outcome))
  | .response r =>
    if s.entryPresent then
      if r ∈ s.pending then
        some ({ s with pending := s.pending.erase r, armed := s.armed.erase r },
              [(r, .delivered)])
      else some (s, [])
    else some (s, [])
  | .timeoutEv r =>
    if r ∈ s.armed then
      if r ∈ s.pending then
        some ({ s with armed := s.armed.erase r, pending := s.pending.erase r },
              [(r, .timeout504)])
      else some ({ s with armed := s.armed.erase r }, [])
    else none
  | .closeEv =>
    if s.closed then none
    else if s.entryPresent then
      some (⟨false, true, s.pending, s.armed.filter (fun x => decide (x ∉ s.pending))⟩,
            s.pending.map (fun r => (r, .closed503)))
    else some ({ s with closed := true }, [])

/-- Run a sequence of events, collecting outcomes. -/
def pendRun (s : PendState) : List PendEvent → Option (PendState × List (String × Outcome))
  | [] => some (s, [])
  | e :: es =>
    match pendStep s e with
    | none => none
    | some (s1, o1) =>
      match pendRun s1 es with
      | none => none
      | some (s2, o2) => some (s2, o1 ++ o2)

/-- Number of outcomes delivered for request `r`. -/
def countOut (outs : List (String × Outcome)) (r : String) : Nat :=
  (outs.filter (fun p => decide (p.1 = r))).length

/-- `r` can still receive an outcome, and its timer is armed. -/
def LiveFor (s : PendState) (r : String) : Prop :=
  s.entryPresent = true ∧ s.closed = false ∧ r ∈ s.pending ∧ r ∈ s.armed

/-- `r` can no longer receive any outcome. -/
def DeadFor (s : PendState) (r : String) : Prop :=
  ¬(s.entryPresent = true ∧ r ∈ s.pending) ∧ r ∉ s.armed

/-- Invariant: given `n` outcomes already delivered for `r`, either none
was delivered and `r` is live, or exactly one was and `r` is dead. -/
def InvFor (s : PendState) (r : String) (n : Nat) : Prop :=
  s.pending.Nodup ∧ s.armed.Nodup ∧
  ((n = 0 ∧ LiveFor s r) ∨ (n = 1 ∧ DeadFor s r))

/- ### Theorems -/

/-- C7: the client's reconnect delay starts at the 2000 ms floor, is
multiplied by 1.5 after each failed attempt, is capped at 15000 ms
(sequence 2000, 3000, 4500, 6750, ... then 15000), and every successful
open resets it to the floor. -/
theorem reconnect_backoff_spec :
    (∀ d : ℚ, delayAfter d .opened = 2000) ∧
    (∀ d : ℚ, closeUses d = (d, min (d * 1.5) 15000)) ∧
    usedDelay 0 = 2000 ∧ usedDelay 1 = 3000 ∧ usedDelay 2 = 4500 ∧
    usedDelay 3 = 6750 ∧
    (∀ n : Nat, usedDelay n = min (2000 * (3 / 2 : ℚ) ^ n) 15000) ∧
    (∀ n : Nat, 5 ≤ n → usedDelay n = 15000) := by
  have hclosed : ∀ n : Nat, usedDelay n = min (2000 * (3 / 2 : ℚ) ^ n) 15000 := by
    intro n
    induction n with
    | zero => simp [usedDelay]; norm_num
    | succ k ih =>
      have h32 : (1.5 : ℚ) = 3 / 2 := by norm_num
      have hnn : (0 : ℚ) ≤ 3 / 2 := by norm_num
      rw [usedDelay, ih, bumpDelay, h32, min_mul_of_nonneg _ _ hnn, min_assoc]
      have hcap : min ((15000 : ℚ) * (3 / 2)) 15000 = 15000 := by
        rw [min_eq_right]; norm_num
      rw [hcap, pow_succ]
      ring_nf
  refine ⟨fun d => rfl, fun d => rfl, rfl, ?_, ?_, ?_, hclosed, ?_⟩
  · show bumpDelay 2000 = 3000
    rw [bumpDelay]; norm_num
  · show bumpDelay (bumpDelay 2000) = 4500
    rw [bumpDelay, bumpDelay]; norm_num
  · show bumpDelay (bumpDelay (bumpDelay 2000)) = 6750
    rw [bumpDelay, bumpDelay, bumpDelay]; norm_num
  · intro n hn
    have hle : (15000 : ℚ) ≤ 2000 * (3 / 2) ^ n := by
      calc (15000 : ℚ) ≤ 2000 * (3 / 2) ^ 5 := by norm_num
      _ ≤ 2000 * (3 / 2) ^ n := by
          apply mul_le_mul_of_nonneg_left _ (by norm_num)
          exact pow_le_pow_right₀ (by norm_num) hn
    rw [hclosed n, min_eq_right hle]

/-- Witness for C7 at concrete inputs. -/
theorem reconnect_backoff_spec_witness :
    usedDelay 5 = 15000 ∧ usedDelay 6 = 15000 ∧ delayAfter 9999 .opened = 2000 :=
  ⟨reconnect_backoff_spec.2.2.2.2.2.2.2 5 (by norm_num),
   reconnect_backoff_spec.2.2.2.2.2.2.2 6 (by norm_num),
   reconnect_backoff_spec.1 9999⟩

/-- C3: a tunneled request whose tunnel id has no registered connection, or
whose connection is not open, immediately yields a synthetic 503 whose body
contains "Tunnel Offline"; the server state (registry and every pending
mapping) is left unchanged, so no PendingRequest is created. -/
theorem tunnel_offline_503 (st : ServerState) (tid reqId : String) (sendOk : Bool)
    (h : lookupTunnel st tid = none ∨
         ∃ t, lookupTunnel st tid = some t ∧ t.wsOpen = false) :
    handleTunnelRequest st tid reqId sendOk = (st, .offline 503 (offlineBody tid.data)) ∧
    containsSub ("Tunnel Offline".data) (offlineBody tid.data) = true := by
  constructor
  · rcases h with h | ⟨t, ht, hopen⟩
    · simp [handleTunnelRequest, h]
    · simp [handleTunnelRequest, ht, hopen]
  · rw [offlineBody, List.append_assoc]
    exact containsSub_append_left _ (by decide)

/-- Witness for C3: tunnel `abc123` has no connection, the dispatch answers
with the 503 offline page and an unchanged state. -/
theorem tunnel_offline_503_witness :
    handleTunnelRequest ⟨[]⟩ "abc123" "r1" true =
      (⟨[]⟩, .offline 503 (offlineBody ("abc123".data))) ∧
    containsSub ("Tunnel Offline".data) (offlineBody ("abc123".data)) = true :=
  tunnel_offline_503 ⟨[]⟩ "abc123" "r1" true (Or.inl rfl)

/-- C4: the dispatch deadline is the fixed constant 30000 ms; when the timer
fires with the PendingRequest still present it is removed and a 504
"Gateway Timeout" is produced, and when the PendingRequest is gone the
expiry is a no-op. -/
theorem timeout_504_spec (t : Tunnel) (reqId : String) :
    requestTimeoutMs = 30000 ∧
    (reqId ∈ t.pendingRequests →
      timeoutFire t reqId =
        ({ t with pendingRequests := t.pendingRequests.erase reqId },
         some (504, ("Gateway Timeout".data)))) ∧
    (reqId ∉ t.pendingRequests →
      timeoutFire t reqId = (t, none)) := by
  refine ⟨rfl, ?_, ?_⟩
  · intro h; simp [timeoutFire, h]
  · intro h; simp [timeoutFire, h]

/-- Witness for C4: one pending request, the timer fires, the request is
removed and 504 produced; firing again is a no-op. -/
theorem timeout_504_spec_witness :
    timeoutFire ⟨true, ["a"]⟩ "a" = (⟨true, []⟩, some (504, ("Gateway Timeout".data))) ∧
    timeoutFire ⟨true, []⟩ "a" = (⟨true, []⟩, none) :=
  ⟨(timeout_504_spec ⟨true, ["a"]⟩ "a").2.1 (by decide),
   (timeout_504_spec ⟨true, []⟩ "a").2.2 (by decide)⟩

/-- C10: the status endpoint reports `connected: true` exactly when a
registry entry exists, regardless of the entry's socket state; openness is
only checked at dispatch, so a state with a registered but non-open socket
reports connected while the dispatch answers the 503 offline page. -/
theorem status_vs_dispatch (st : ServerState) (tid reqId : String)
    (sendOk : Bool) (t : Tunnel) :
    (lookupTunnel st tid = none → statusConnected st tid = false) ∧
    (lookupTunnel st tid = some t → statusConnected st tid = true) ∧
    (lookupTunnel st tid = some t → t.wsOpen = false →
      statusConnected st tid = true ∧
      handleTunnelRequest st tid reqId sendOk =
        (st, .offline 503 (offlineBody tid.data))) := by
  refine ⟨?_, ?_, ?_⟩
  · intro h; simp [statusConnected, h]
  · intro h; simp [statusConnected, h]
  · intro h hopen
    refine ⟨by simp [statusConnected, h], ?_⟩
    simp [handleTunnelRequest, h, hopen]

/-- C2 (bug evaluation): after connection 1 registers for a tunnel id,
request r1 is dispatched, connection 2 registers (replacing connection 1),
and request r2 is dispatched, the close of the superseded connection 1
looks the tunnel up by id, therefore fails the NEW connection's request r2
with 503, deletes the new connection's registry entry, and leaves the old
connection's pending request r1 unfailed — contradicting the spec, which
requires r1 to be failed and connection 2's entry and pending requests to
be left undisturbed. -/
theorem stale_close_handler_bug :
    closeConn (dispatchReq (register (dispatchReq (register ⟨none, []⟩ 1) "r1") 2) "r2") 1 =
      (⟨none, [(1, ⟨false, ["r1"]⟩), (2, ⟨true, ["r2"]⟩)]⟩, [("r2", 503)]) ∧
    (register (dispatchReq (register ⟨none, []⟩ 1) "r1") 2).registry = some 2 := by
  constructor
  · rfl
  · rfl

theorem countOut_append (o1 o2 : List (String × Outcome)) (r : String) :
    countOut (o1 ++ o2) r = countOut o1 r + countOut o2 r := by
  simp [countOut, List.filter_append]

theorem countOut_map_of_not_mem {l : List String} {r : String} (o : Outcome)
    (h : r ∉ l) : countOut (l.map (fun x => (x, o))) r = 0 := by
  induction l with
  | nil => rfl
  | cons b tl ih =>
    have hb : ¬(b = r) := fun hc => h (hc ▸ List.mem_cons_self b tl)
    have htl : r ∉ tl := fun hc => h (List.mem_cons_of_mem b hc)
    have h0 := ih htl
    simp [countOut, List.filter_cons, hb] at h0 ⊢
    exact h0

theorem countOut_map_of_mem {l : List String} {r : String} (o : Outcome)
    (hnd : l.Nodup) (h : r ∈ l) : countOut (l.map (fun x => (x, o))) r = 1 := by
  induction l with
  | nil => simp at h
  | cons b tl ih =>
    by_cases hb : b = r
    · subst hb
      have htl : b ∉ tl := (List.nodup_cons.mp hnd).1
      have h0 := countOut_map_of_not_mem (r := b) o htl
      simp [countOut, List.filter_cons] at h0 ⊢
      exact h0
    · have hr : r ∈ tl := by
        rcases List.mem_cons.mp h with hc | hc
        · exact absurd hc.symm hb
        · exact hc
      have h1 := ih (List.nodup_cons.mp hnd).2 hr
      simp [countOut, List.filter_cons, hb] at h1 ⊢
      exact h1

theorem countOut_one_eq (r : String) (x : Outcome) : countOut [(r, x)] r = 1 := by
  simp [countOut, List.filter_cons]

theorem countOut_one_ne {q r : String} (x : Outcome) (h : ¬(q = r)) :
    countOut [(q, x)] r = 0 := by
  simp [countOut, List.filter_cons, h]

theorem pendStep_inv {s : PendState} {r : String} {n : Nat} {e : PendEvent}
    {s' : PendState} {o : List (String × Outcome)}
    (hI : InvFor s r n) (hs : pendStep s e = some (s', o)) :
    InvFor s' r (n + countOut o r) ∧
    n + countOut o r ≤ 1 ∧
    ((e = .response r ∨ e = .timeoutEv r ∨ e = .closeEv) → n + countOut o r = 1) ∧
    ((e ≠ .response r ∧ e ≠ .timeoutEv r ∧ e ≠ .closeEv) → countOut o r = 0) := by
  obtain ⟨hndp, hnda, hcase⟩ := hI
  have hc0 : countOut ([] : List (String × Outcome)) r = 0 := rfl
  have hn01 : n = 0 ∨ n = 1 := by
    rcases hcase with ⟨hn, _⟩ | ⟨hn, _⟩ <;> omega
  cases e with
  | response r' =>
    simp only [pendStep] at hs
    by_cases hep : s.entryPresent = true
    · rw [if_pos hep] at hs
      by_cases hmem : r' ∈ s.pending
      · rw [if_pos hmem] at hs
        have h1 := Option.some.inj hs
        have hseq := congrArg Prod.fst h1
        have hoeq := congrArg Prod.snd h1
        dsimp at hseq hoeq
        subst hseq hoeq
        by_cases hrr : r' = r
        · subst hrr
          rw [countOut_one_eq]
          rcases hcase with ⟨hn, hlive⟩ | ⟨hn, hdead⟩
          · subst hn
            refine ⟨⟨hndp.erase r', hnda.erase r', Or.inr ⟨by omega, ?_, ?_⟩⟩,
              by omega, fun _ => by omega, fun hne => absurd rfl hne.1⟩
            · rintro ⟨_, hmem'⟩
              exact ((List.Nodup.mem_erase_iff hndp).mp hmem').1 rfl
            · intro hmem'
              exact ((List.Nodup.mem_erase_iff hnda).mp hmem').1 rfl
          · exact absurd ⟨hep, hmem⟩ hdead.1
        · rw [countOut_one_ne _ hrr]
          have hpend : r ∈ s.pending.erase r' ↔ r ∈ s.pending :=
            List.mem_erase_of_ne (fun hc => hrr hc.symm)
          have harm : r ∈ s.armed.erase r' ↔ r ∈ s.armed :=
            List.mem_erase_of_ne (fun hc => hrr hc.symm)
          refine ⟨⟨hndp.erase r', hnda.erase r', ?_⟩, by omega, ?_, fun _ => rfl⟩
          · rcases hcase with ⟨hn, hlive⟩ | ⟨hn, hdead⟩
            · exact Or.inl ⟨by omega, hlive.1, hlive.2.1, hpend.mpr hlive.2.2.1,
                harm.mpr hlive.2.2.2⟩
            · exact Or.inr ⟨by omega, fun hc => hdead.1 ⟨hc.1, hpend.mp hc.2⟩,
                fun hc => hdead.2 (harm.mp hc)⟩
          · intro htrig
            rcases htrig with htrig | htrig | htrig
            · exact absurd (by injection htrig) hrr
            · exact PendEvent.noConfusion htrig
            · exact PendEvent.noConfusion htrig
      · rw [if_neg hmem] at hs
        have h1 := Option.some.inj hs
        have hseq := congrArg Prod.fst h1
        have hoeq := congrArg Prod.snd h1
        dsimp at hseq hoeq
        subst hseq hoeq
        refine ⟨⟨hndp, hnda, hcase⟩, by omega, ?_, fun _ => rfl⟩
        intro htrig
        rcases htrig with htrig | htrig | htrig
        · have hrr : r' = r := by injection htrig
          subst hrr
          rcases hcase with ⟨hn, hlive⟩ | ⟨hn, _⟩
          · exact absurd hlive.2.2.1 hmem
          · simp [countOut, hn]
        · exact PendEvent.noConfusion htrig
        · exact PendEvent.noConfusion htrig
    · rw [if_neg hep] at hs
      have h1 := Option.some.inj hs
      have hseq := congrArg Prod.fst h1
      have hoeq := congrArg Prod.snd h1
      dsimp at hseq hoeq
      subst hseq hoeq
      refine ⟨⟨hndp, hnda, hcase⟩, by omega, ?_, fun _ => rfl⟩
      intro _
      rcases hcase with ⟨hn, hlive⟩ | ⟨hn, _⟩
      · exact absurd hlive.1 hep
      · simp [countOut, hn]
  | timeoutEv r' =>
    simp only [pendStep] at hs
    by_cases harm : r' ∈ s.armed
    · rw [if_pos harm] at hs
      by_cases hmem : r' ∈ s.pending
      · rw [if_pos hmem] at hs
        have h1 := Option.some.inj hs
        have hseq := congrArg Prod.fst h1
        have hoeq := congrArg Prod.snd h1
        dsimp at hseq hoeq
        subst hseq hoeq
        by_cases hrr : r' = r
        · subst hrr
          rw [countOut_one_eq]
          rcases hcase with ⟨hn, hlive⟩ | ⟨hn, hdead⟩
          · subst hn
            refine ⟨⟨hndp.erase r', hnda.erase r', Or.inr ⟨by omega, ?_, ?_⟩⟩,
              by omega, fun _ => by omega, fun hne => absurd rfl hne.2.1⟩
            · rintro ⟨_, hmem'⟩
              exact ((List.Nodup.mem_erase_iff hndp).mp hmem').1 rfl
            · intro hmem'
              exact ((List.Nodup.mem_erase_iff hnda).mp hmem').1 rfl
          · exact absurd harm hdead.2
        · rw [countOut_one_ne _ hrr]
          have hpend : r ∈ s.pending.erase r' ↔ r ∈ s.pending :=
            List.mem_erase_of_ne (fun hc => hrr hc.symm)
          have harm2 : r ∈ s.armed.erase r' ↔ r ∈ s.armed :=
            List.mem_erase_of_ne (fun hc => hrr hc.symm)
          refine ⟨⟨hndp.erase r', hnda.erase r', ?_⟩, by omega, ?_, fun _ => rfl⟩
          · rcases hcase with ⟨hn, hlive⟩ | ⟨hn, hdead⟩
            · exact Or.inl ⟨by omega, hlive.1, hlive.2.1, hpend.mpr hlive.2.2.1,
                harm2.mpr hlive.2.2.2⟩
            · exact Or.inr ⟨by omega, fun hc => hdead.1 ⟨hc.1, hpend.mp hc.2⟩,
                fun hc => hdead.2 (harm2.mp hc)⟩
          · intro htrig
            rcases htrig with htrig | htrig | htrig
            · exact PendEvent.noConfusion htrig
            · exact absurd (by injection htrig) hrr
            · exact PendEvent.noConfusion htrig
      · rw [if_neg hmem] at hs
        have h1 := Option.some.inj hs
        have hseq := congrArg Prod.fst h1
        have hoeq := congrArg Prod.snd h1
        dsimp at hseq hoeq
        subst hseq hoeq
        by_cases hrr : r' = r
        · subst hrr
          rcases hcase with ⟨hn, hlive⟩ | ⟨hn, hdead⟩
          · exact absurd hlive.2.2.1 hmem
          · exact absurd harm hdead.2
        · have harm2 : r ∈ s.armed.erase r' ↔ r ∈ s.armed :=
            List.mem_erase_of_ne (fun hc => hrr hc.symm)
          refine ⟨⟨hndp, hnda.erase r', ?_⟩, by omega, ?_, fun _ => rfl⟩
          · rcases hcase with ⟨hn, hlive⟩ | ⟨hn, hdead⟩
            · exact Or.inl ⟨by omega, hlive.1, hlive.2.1, hlive.2.2.1,
                harm2.mpr hlive.2.2.2⟩
            · exact Or.inr ⟨by omega, hdead.1, fun hc => hdead.2 (harm2.mp hc)⟩
          · intro htrig
            rcases htrig with htrig | htrig | htrig
            · exact PendEvent.noConfusion htrig
            · exact absurd (by injection htrig) hrr
            · exact PendEvent.noConfusion htrig
    · rw [if_neg harm] at hs
      exact Option.noConfusion hs
  | closeEv =>
    simp only [pendStep] at hs
    by_cases hcl : s.closed = true
    · rw [if_pos hcl] at hs
      exact Option.noConfusion hs
    · rw [if_neg hcl] at hs
      by_cases hep : s.entryPresent = true
      · rw [if_pos hep] at hs
        have h1 := Option.some.inj hs
        have hseq := congrArg Prod.fst h1
        have hoeq := congrArg Prod.snd h1
        dsimp at hseq hoeq
        subst hseq hoeq
        rcases hcase with ⟨hn, hlive⟩ | ⟨hn, hdead⟩
        · subst hn
          rw [countOut_map_of_mem Outcome.closed503 hndp hlive.2.2.1]
          refine ⟨⟨hndp, hnda.filter _, Or.inr ⟨by omega, ?_, ?_⟩⟩,
            by omega, fun _ => by omega, fun hne => absurd rfl hne.2.2⟩
          · rintro ⟨hc, _⟩
            exact Bool.noConfusion hc
          · intro hmem'
            dsimp only at hmem'
            exact (of_decide_eq_true (List.mem_filter.mp hmem').2) hlive.2.2.1
        · have hrp : r ∉ s.pending := fun hc => hdead.1 ⟨hep, hc⟩
          rw [countOut_map_of_not_mem Outcome.closed503 hrp]
          refine ⟨⟨hndp, hnda.filter _, Or.inr ⟨by omega, ?_, ?_⟩⟩, by omega,
            fun _ => by omega, fun hne => absurd rfl hne.2.2⟩
          · rintro ⟨hc, _⟩
            exact Bool.noConfusion hc
          · intro hmem'
            dsimp only at hmem'
            exact hdead.2 (List.mem_of_mem_filter hmem')
      · rw [if_neg hep] at hs
        have h1 := Option.some.inj hs
        have hseq := congrArg Prod.fst h1
        have hoeq := congrArg Prod.snd h1
        dsimp at hseq hoeq
        subst hseq hoeq
        rcases hcase with ⟨hn, hlive⟩ | ⟨hn, hdead⟩
        · exact absurd hlive.1 hep
        · refine ⟨⟨hndp, hnda, Or.inr ⟨hn, hdead⟩⟩, by omega, fun _ => by simp [countOut, hn],
            fun _ => rfl⟩

theorem pendRun_inv {s : PendState} {r : String} {n : Nat} {tr : List PendEvent}
    {s' : PendState} {outs : List (String × Outcome)}
    (hI : InvFor s r n) (hrun : pendRun s tr = some (s', outs)) :
    n + countOut outs r ≤ 1 ∧
    ((PendEvent.response r ∈ tr ∨ PendEvent.timeoutEv r ∈ tr ∨ PendEvent.closeEv ∈ tr) →
      n + countOut outs r = 1) := by
  induction tr generalizing s n outs with
  | nil =>
    simp only [pendRun, Option.some.injEq] at hrun
    have hoeq := congrArg Prod.snd hrun
    dsimp at hoeq
    rw [← hoeq]
    obtain ⟨_, _, hcase⟩ := hI
    refine ⟨?_, ?_⟩
    · rcases hcase with ⟨hn, _⟩ | ⟨hn, _⟩ <;> simp [countOut, hn]
    · intro h; rcases h with h | h | h <;> simp at h
  | cons e es ih =>
    simp only [pendRun] at hrun
    cases hstep : pendStep s e with
    | none => rw [hstep] at hrun; exact Option.noConfusion hrun
    | some q1 =>
      obtain ⟨s1, o1⟩ := q1
      rw [hstep] at hrun
      dsimp only at hrun
      cases hrun2 : pendRun s1 es with
      | none => rw [hrun2] at hrun; exact Option.noConfusion hrun
      | some q2 =>
        obtain ⟨s2, o2⟩ := q2
        rw [hrun2] at hrun
        have h1 := Option.some.inj hrun
        have hs2 := congrArg Prod.fst h1
        have ho := congrArg Prod.snd h1
        dsimp at hs2 ho
        subst hs2
        subst ho
        obtain ⟨hInv1, hle, htrig1, _⟩ := pendStep_inv hI hstep
        obtain ⟨hle2, htrig2⟩ := ih hInv1 hrun2
        rw [countOut_append]
        refine ⟨by omega, ?_⟩
        intro hmem
        rcases hmem with hm | hm | hm
        · rcases List.mem_cons.mp hm with he | he
          · have h3 := htrig1 (Or.inl he.symm)
            omega
          · have h3 := htrig2 (Or.inl he)
            omega
        · rcases List.mem_cons.mp hm with he | he
          · have h3 := htrig1 (Or.inr (Or.inl he.symm))
            omega
          · have h3 := htrig2 (Or.inr (Or.inl he))
            omega
        · rcases List.mem_cons.mp hm with he | he
          · have h3 := htrig1 (Or.inr (Or.inr he.symm))
            omega
          · have h3 := htrig2 (Or.inr (Or.inr he))
            omega

theorem b64Idx_eq : ∀ n, n < 64 → b64Idx (b64Char n) = some n := by decide

/-- Base64 decoding inverts base64 encoding on byte payloads. -/
theorem b64_decode_encode (bs : List Nat) (h : ∀ b ∈ bs, b < 256) :
    b64Decode (b64Encode bs) = bs := by
  induction bs using b64Encode.induct with
  | case1 => rfl
  | case2 a =>
    have ha : a < 256 := h a (by simp)
    have h1 : b64Idx (b64Char (a / 4)) = some (a / 4) := b64Idx_eq _ (by omega)
    have h2 : b64Idx (b64Char (a % 4 * 16)) = some (a % 4 * 16) := b64Idx_eq _ (by omega)
    have he : b64Idx ('=') = none := by decide
    simp only [b64Encode, b64Decode, List.filterMap_cons, h1, h2, he,
      List.filterMap_nil, sextetsToBytes, List.cons.injEq, and_true]
    omega
  | case3 a b =>
    have ha : a < 256 := h a (by simp)
    have hb : b < 256 := h b (by simp)
    have h1 : b64Idx (b64Char (a / 4)) = some (a / 4) := b64Idx_eq _ (by omega)
    have h2 : b64Idx (b64Char (a % 4 * 16 + b / 16)) = some (a % 4 * 16 + b / 16) :=
      b64Idx_eq _ (by omega)
    have h3 : b64Idx (b64Char (b % 16 * 4)) = some (b % 16 * 4) := b64Idx_eq _ (by omega)
    have he : b64Idx ('=') = none := by decide
    simp only [b64Encode, b64Decode, List.filterMap_cons, h1, h2, h3, he,
      List.filterMap_nil, sextetsToBytes, List.cons.injEq, and_true]
    omega
  | case4 a b c rest ih =>
    have ha : a < 256 := h a (by simp)
    have hb : b < 256 := h b (by simp)
    have hc : c < 256 := h c (by simp)
    have h1 : b64Idx (b64Char (a / 4)) = some (a / 4) := b64Idx_eq _ (by omega)
    have h2 : b64Idx (b64Char (a % 4 * 16 + b / 16)) = some (a % 4 * 16 + b / 16) :=
      b64Idx_eq _ (by omega)
    have h3 : b64Idx (b64Char (b % 16 * 4 + c / 64)) = some (b % 16 * 4 + c / 64) :=
      b64Idx_eq _ (by omega)
    have h4 : b64Idx (b64Char (c % 64)) = some (c % 64) := b64Idx_eq _ (by omega)
    have ihr : b64Decode (b64Encode rest) = rest := by
      apply ih
      intro x hx
      exact h x (by simp [hx])
    simp only [b64Decode] at ihr
    simp only [b64Encode, b64Decode, List.filterMap_cons, h1, h2, h3, h4,
      sextetsToBytes, ihr, List.cons.injEq]
    refine ⟨by omega, by omega, by omega, trivial⟩

/-- Witness for C10: a registered tunnel whose socket is no longer open is
reported as connected while its dispatch answers 503. -/
theorem status_vs_dispatch_witness :
    statusConnected ⟨[("x", ⟨false, []⟩)]⟩ "x" = true ∧
    handleTunnelRequest ⟨[("x", ⟨false, []⟩)]⟩ "x" "r" true =
      (⟨[("x", ⟨false, []⟩)]⟩, .offline 503 (offlineBody ("x".data))) :=
  (status_vs_dispatch ⟨[("x", ⟨false, []⟩)]⟩ "x" "r" true ⟨false, []⟩).2.2
    (by decide) rfl

/-- C1: starting from a dispatched request `r` whose tunnel connection is
open (registry entry present, `r` pending, deadline armed), any physically
possible event sequence delivers at most one terminal outcome for `r`, and
exactly one as soon as the sequence contains a response for `r`, `r`'s
deadline expiry, or the connection close; moreover a `response` message
arriving after `r`'s PendingRequest is gone (or the tunnel entry is gone)
leaves the state unchanged and produces no outcome. -/
theorem request_exactly_one_outcome (p a : List String) (r : String)
    (tr : List PendEvent) (s' : PendState) (outs : List (String × Outcome))
    (hp : p.Nodup) (ha : a.Nodup) (hrp : r ∈ p) (hra : r ∈ a)
    (hrun : pendRun ⟨true, false, p, a⟩ tr = some (s', outs)) :
    countOut outs r ≤ 1 ∧
    ((PendEvent.response r ∈ tr ∨ PendEvent.timeoutEv r ∈ tr ∨ PendEvent.closeEv ∈ tr) →
      countOut outs r = 1) ∧
    (∀ t : PendState, ¬(t.entryPresent = true ∧ r ∈ t.pending) →
      pendStep t (.response r) = some (t, [])) := by
  have hI : InvFor ⟨true, false, p, a⟩ r 0 :=
    ⟨hp, ha, Or.inl ⟨rfl, ⟨rfl, rfl, hrp, hra⟩⟩⟩
  obtain ⟨h1, h2⟩ := pendRun_inv hI hrun
  refine ⟨by omega, fun hm => by have := h2 hm; omega, ?_⟩
  intro t ht
  simp only [pendStep]
  by_cases hep : t.entryPresent = true
  · have hmem : r ∉ t.pending := fun hm => ht ⟨hep, hm⟩
    rw [if_pos hep, if_neg hmem]
  · rw [if_neg hep]

/-- Witness for C1: one pending request, the connection closes; exactly one
outcome (the 503) is delivered. -/
theorem request_exactly_one_outcome_witness :
    countOut [("a", Outcome.closed503)] "a" = 1 ∧
    countOut [("a", Outcome.closed503)] "a" ≤ 1 := by
  have h := request_exactly_one_outcome ["a"] ["a"] "a" [PendEvent.closeEv]
    ⟨false, true, ["a"], []⟩ [("a", Outcome.closed503)]
    (by decide) (by decide) (by decide) (by decide) (by decide)
  exact ⟨h.2.1 (Or.inr (Or.inr (by decide))), h.1⟩

theorem char_toNat_lt (c : Char) : c.toNat < 1114112 := by
  have h := c.valid
  simp only [UInt32.isValidChar, Nat.isValidChar] at h
  have he : c.toNat = c.val.toNat := rfl
  rcases h with h | ⟨h1, h2⟩ <;> omega

theorem utf8EncodeChar_lt (c : Char) : ∀ b ∈ utf8EncodeChar c, b < 256 := by
  intro b hb
  have hv := char_toNat_lt c
  simp only [utf8EncodeChar] at hb
  split_ifs at hb with h1 h2 h3 <;> simp at hb <;> omega

theorem utf8Encode_lt (s : Str) : ∀ b ∈ utf8Encode s, b < 256 := by
  induction s with
  | nil => intro b hb; simp [utf8Encode] at hb
  | cons c tl ih =>
    intro b hb
    simp only [utf8Encode, List.mem_append] at hb
    rcases hb with hb | hb
    · exact utf8EncodeChar_lt c b hb
    · exact ih b hb

theorem b64Encode_ne_nil {bs : List Nat} (h : bs ≠ []) : b64Encode bs ≠ [] := by
  match bs with
  | [] => exact absurd rfl h
  | [a] => simp [b64Encode]
  | [a, b] => simp [b64Encode]
  | a :: b :: c :: rest => simp [b64Encode]

/-- C6 counterexample: with an HTML content type and a body containing a
`<head>` tag, the bytes delivered to the public caller are NOT the bytes
the local service returned — the rewriter injects a `<base>` element. -/
theorem body_roundTrip_counterexample :
    tunnelBodyRoundTrip [(("content-type".data), ("text/html".data))]
      (utf8Encode ("<head></head>".data)) ("id".data) ≠
      utf8Encode ("<head></head>".data) := by decide

/-- C6 (amended): for every response whose content type does not indicate
HTML, the delivered body bytes equal the bytes the local service returned
— base64 decoding on the relay inverts base64 encoding on the client for
any byte payload, text or binary. -/
theorem body_roundTrip_nonHtml (headers : List (Str × Str)) (bytes : List Nat)
    (tid : Str) (hbytes : ∀ b ∈ bytes, b < 256) (hct : isHtmlCT headers = false) :
    tunnelBodyRoundTrip headers bytes tid = bytes ∧
    b64Decode (b64Encode bytes) = bytes := by
  have hrt := b64_decode_encode bytes hbytes
  refine ⟨?_, hrt⟩
  by_cases hb : bytes = []
  · subst hb; rfl
  · have henc := b64Encode_ne_nil hb
    simp [tunnelBodyRoundTrip, clientBody, hb, deliveredBytes, henc, hct, hrt]

/-- Witness for C6 (amended): a binary payload through a non-HTML response
comes back byte-identical. -/
theorem body_roundTrip_nonHtml_witness :
    tunnelBodyRoundTrip [(("content-type".data), ("application/octet-stream".data))]
      [0, 255, 10, 128, 7] ("id".data) = [0, 255, 10, 128, 7] :=
  (body_roundTrip_nonHtml _ _ _ (by decide) (by decide)).1

/-- C8: when the forward to the local target fails with a connection error,
the client synthesizes a 502 response with a `text/plain` body describing
the failure, and sends it back through the tunnel as a normal `response`
message carrying the original reqId; the relay's base64 decode recovers
exactly the plain-text bytes. -/
theorem local_error_502_spec (reqId : String) (msg m p : Str)
    (h : List (Str × Str)) (b : Option Str) :
    clientHandleMessage (Except.ok (InMsg.request reqId m p h b)) true
        (.connError msg) =
      some ⟨("response".data), reqId, 502,
            [(("content-type".data), ("text/plain".data))],
            some (b64Encode (utf8Encode (("Local server error: ".data) ++ msg)))⟩ ∧
    b64Decode (b64Encode (utf8Encode (("Local server error: ".data) ++ msg))) =
      utf8Encode (("Local server error: ".data) ++ msg) :=
  ⟨rfl, b64_decode_encode _ (utf8Encode_lt _)⟩

/-- C9: a malformed target URL makes the client answer a synthesized 400
locally; an unparseable inbound frame is swallowed by the client handler;
an unparseable inbound frame on the relay is caught, leaving the state
unchanged and producing no output; and a parsed message of any type other
than `response` is ignored by the relay. All handlers are total functions:
no input makes them throw. -/
theorem malformed_inputs_swallowed :
    (∀ outcome : LocalOutcome, forwardToLocal false outcome = ⟨400, [], none⟩) ∧
    (∀ (e : Str) (urlOk : Bool) (outcome : LocalOutcome),
      clientHandleMessage (Except.error e) urlOk outcome = none) ∧
    (∀ (tid : String) (e : Str) (st : ServerState),
      serverHandleMessage tid (Except.error e) st = (st, [])) ∧
    (∀ (tid : String) (st : ServerState),
      serverHandleMessage tid (Except.ok WireMsg.otherMsg) st = (st, [])) :=
  ⟨fun _ => rfl, fun _ _ _ => rfl, fun _ _ _ => rfl, fun _ _ => rfl⟩

theorem noMatchIn_gsub {m : Char → Str → Option (Nat × Str)} {p t : Str}
    (h : noMatchIn m p t = true) : gsub m (p ++ t) = p ++ gsub m t := by
  induction p with
  | nil => simp
  | cons c cs ih =>
    simp only [noMatchIn, Bool.and_eq_true, Option.isNone_iff_eq_none] at h
    rw [List.cons_append, gsub_cons_none h.1, ih h.2]
    rfl

theorem gsub_all_free {m : Char → Str → Option (Nat × Str)} {s : Str}
    (h : noMatchIn m s [] = true) : gsub m s = s := by
  have h2 := noMatchIn_gsub (t := []) h
  simpa [gsub_nil] using h2

theorem replaceFirst_cons_none {m : Char → Str → Option (Nat × Str)} {c : Char}
    {cs : Str} (h : m c cs = none) :
    replaceFirst m (c :: cs) = c :: replaceFirst m cs := by
  simp only [replaceFirst, h]

theorem replaceFirst_cons_some {m : Char → Str → Option (Nat × Str)} {c : Char}
    {cs : Str} {k : Nat} {repl : Str} (h : m c cs = some (k, repl)) :
    replaceFirst m (c :: cs) = repl ++ cs.drop k := by
  simp only [replaceFirst, h]

theorem gsub_match_head {m : Char → Str → Option (Nat × Str)} {x t repl : Str}
    (hx : x ≠ []) (hm : matchAt m (x ++ t) = some (x.length - 1, repl)) :
    gsub m (x ++ t) = repl ++ gsub m t := by
  cases x with
  | nil => exact absurd rfl hx
  | cons x0 xs =>
    simp only [List.cons_append, matchAt, List.length_cons, Nat.add_sub_cancel] at hm
    rw [List.cons_append, gsub_cons_some hm, List.drop_left]

theorem noMatchIn_replaceFirst {m : Char → Str → Option (Nat × Str)} {p t : Str}
    (h : noMatchIn m p t = true) :
    replaceFirst m (p ++ t) = p ++ replaceFirst m t := by
  induction p with
  | nil => simp
  | cons c cs ih =>
    simp only [noMatchIn, Bool.and_eq_true, Option.isNone_iff_eq_none] at h
    rw [List.cons_append, replaceFirst_cons_none h.1, ih h.2]
    rfl

theorem replaceFirst_all_free {m : Char → Str → Option (Nat × Str)} {s : Str}
    (h : noMatchIn m s [] = true) : replaceFirst m s = s := by
  have h2 := noMatchIn_replaceFirst (t := []) h
  simpa [replaceFirst] using h2

theorem replaceFirst_match_head {m : Char → Str → Option (Nat × Str)}
    {x t repl : Str} (hx : x ≠ [])
    (hm : matchAt m (x ++ t) = some (x.length - 1, repl)) :
    replaceFirst m (x ++ t) = repl ++ t := by
  cases x with
  | nil => exact absurd rfl hx
  | cons x0 xs =>
    simp only [List.cons_append, matchAt, List.length_cons, Nat.add_sub_cancel] at hm
    rw [List.cons_append, replaceFirst_cons_some hm, List.drop_left]

theorem takeWhile_all_append {p : Char → Bool} {w : Str} (x : Char) (t : Str)
    (hw : ∀ c ∈ w, p c = true) (hx : p x = false) :
    (w ++ x :: t).takeWhile p = w := by
  induction w with
  | nil => simp [List.takeWhile_cons, hx]
  | cons c cs ih =>
    have hc : p c = true := hw c (List.mem_cons_self c cs)
    rw [List.cons_append, List.takeWhile_cons, hc]
    rw [ih (fun d hd => hw d (List.mem_cons_of_mem c hd))]
    simp

theorem dropWhile_all_append {p : Char → Bool} {w : Str} (x : Char) (t : Str)
    (hw : ∀ c ∈ w, p c = true) (hx : p x = false) :
    (w ++ x :: t).dropWhile p = x :: t := by
  induction w with
  | nil => simp [List.dropWhile_cons, hx]
  | cons c cs ih =>
    have hc : p c = true := hw c (List.mem_cons_self c cs)
    rw [List.cons_append, List.dropWhile_cons, hc]
    exact ih (fun d hd => hw d (List.mem_cons_of_mem c hd))

theorem span_all_append {p : Char → Bool} {w : Str} (x : Char) (t : Str)
    (hw : ∀ c ∈ w, p c = true) (hx : p x = false) :
    (w ++ x :: t).span p = (w, x :: t) := by
  rw [List.span_eq_take_drop, takeWhile_all_append x t hw hx,
    dropWhile_all_append x t hw hx]

theorem isPrefixOf_self_append (p t : Str) : p.isPrefixOf (p ++ t) = true := by
  induction p with
  | nil => simp [List.isPrefixOf]
  | cons c cs ih => simp [List.isPrefixOf, ih]

theorem attrName_ne_nil {name : Str} (h : AttrName name) : name ≠ [] := by
  rcases h with h | ⟨w, hw, _, hname⟩
  · simp only [attrFixed, List.mem_cons, List.mem_singleton] at h
    rcases h with rfl | rfl | rfl | rfl | h <;> first | decide | simp at h
  · subst hname; simp

theorem parseAttrName_eq {name : Str} (h : AttrName name) (t : Str) :
    parseAttrName (name ++ '=' :: t) = some (name, '=' :: t) := by
  rcases h with h | ⟨w, hw, hwd, hname⟩
  · simp only [attrFixed, List.mem_cons, List.mem_singleton] at h
    rcases h with rfl | rfl | rfl | rfl | h
    · rfl
    · rfl
    · rfl
    · rfl
    · simp at h
  · subst hname
    have hspan := span_all_append (p := wordDash) '=' t hwd (by decide)
    have hdrop : ((("data-".data) ++ w) ++ '=' :: t).drop 5 = w ++ '=' :: t := rfl
    have hpre : ("data-".data).isPrefixOf ((("data-".data) ++ w) ++ '=' :: t) = true := by
      have h2 := isPrefixOf_self_append ("data-".data) (w ++ '=' :: t)
      rwa [← List.append_assoc] at h2
    rw [parseAttrName,
      if_neg (fun hcontra => Bool.noConfusion hcontra),
      if_neg (fun hcontra => Bool.noConfusion hcontra),
      if_neg (fun hcontra => Bool.noConfusion hcontra),
      if_neg (fun hcontra => Bool.noConfusion hcontra),
      if_pos hpre, hdrop, hspan]
    cases w with
    | nil => exact absurd rfl hw
    | cons w0 ws => rfl

theorem attrMatcher_pos (base : Str) {name : Str} (hn : AttrName name)
    {q : Char} (hq : q = '"' ∨ q = '\'') {rest : Str}
    (hr : rest.head? ≠ some '/') :
    matchAt (attrMatcher base) (name ++ '=' :: q :: '/' :: rest) =
      some (name.length + 2, name ++ '=' :: q :: base ++ ['/']) := by
  have hnn := attrName_ne_nil hn
  cases name with
  | nil => exact absurd rfl hnn
  | cons n0 ns =>
    show attrMatcher base n0 (ns ++ '=' :: q :: '/' :: rest) = _
    have hp : parseAttrName ((n0 :: ns) ++ '=' :: q :: '/' :: rest) =
        some (n0 :: ns, '=' :: q :: '/' :: rest) := parseAttrName_eq hn _
    simp only [List.cons_append] at hp
    simp only [attrMatcher, hp]
    have hcond : ((q = '"' || q = '\'') && !(rest.head? = some '/')) = true := by
      rcases hq with rfl | rfl <;> simp [hr]
    rw [if_pos hcond]

theorem attrMatcher_protocol_relative (base : Str) {name : Str}
    (hn : AttrName name) {q : Char} (rest : Str) :
    matchAt (attrMatcher base) (name ++ '=' :: q :: '/' :: '/' :: rest) = none := by
  have hnn := attrName_ne_nil hn
  cases name with
  | nil => exact absurd rfl hnn
  | cons n0 ns =>
    show attrMatcher base n0 (ns ++ '=' :: q :: '/' :: '/' :: rest) = none
    have hp : parseAttrName ((n0 :: ns) ++ '=' :: q :: '/' :: '/' :: rest) =
        some (n0 :: ns, '=' :: q :: '/' :: '/' :: rest) := parseAttrName_eq hn _
    simp only [List.cons_append] at hp
    simp only [attrMatcher, hp]
    simp

theorem urlMatcher_pos (base : Str) {rest : Str} (hr : rest.head? ≠ some '/') :
    matchAt (urlMatcher base) (("url(/".data) ++ rest) =
      some (4, ("url(".data) ++ base ++ ['/']) := by
  show urlMatcher base 'u' ('r' :: 'l' :: '(' :: '/' :: rest) = _
  simp only [urlMatcher]
  rw [if_neg hr]

theorem urlMatcher_protocol_relative (base : Str) (rest : Str) :
    matchAt (urlMatcher base) (("url(//".data) ++ rest) = none := by
  show urlMatcher base 'u' ('r' :: 'l' :: '(' :: '/' :: '/' :: rest) = none
  simp [urlMatcher]

theorem headMatcher_pos (base : Str) {h e a d : Char}
    (hh : h.toLower = 'h') (he : e.toLower = 'e') (ha : a.toLower = 'a')
    (hd : d.toLower = 'd') {mid : Str} (hm : ∀ x ∈ mid, x ≠ '>') (rest : Str) :
    matchAt (headMatcher base) ('<' :: h :: e :: a :: d :: (mid ++ '>' :: rest)) =
      some (5 + mid.length, '<' :: h :: e :: a :: d :: mid ++ '>' ::
        (("\n  <base href=\"".data) ++ base ++ ("/\">".data))) := by
  show headMatcher base '<' (h :: e :: a :: d :: (mid ++ '>' :: rest)) = _
  simp only [headMatcher]
  have hcond : (h.toLower = 'h' && e.toLower = 'e' && a.toLower = 'a' &&
      d.toLower = 'd') = true := by simp [hh, he, ha, hd]
  rw [if_pos hcond]
  have hspan : (mid ++ '>' :: rest).span (fun x => !(x = '>')) = (mid, '>' :: rest) := by
    apply span_all_append
    · intro c hc
      simp [hm c hc]
    · simp
  rw [hspan]
  rfl

/-- C5 counterexample: the head-tag regex `<head[^>]*>` also matches
`<header>`; with `<header>x</header><head></head>` the input contains an
opening `<head>` tag, yet the `<base>` element is injected after
`<header>`, and nowhere in the output does the injected base follow the
opening `<head>` tag. -/
theorem rewriteHtml_base_counterexample :
    containsSub ("<head>".data) ("<header>x</header><head></head>".data) = true ∧
    rewriteHtml ("<header>x</header><head></head>".data) ("id".data) =
      ("<header>\n  <base href=\"/t/id/\">x</header><head></head>".data) ∧
    containsSub ("<head>\n  <base".data)
      (rewriteHtml ("<header>x</header><head></head>".data) ("id".data)) = false :=
  ⟨by decide, by decide, by decide⟩

/-- C5 (amended): for every tunnel id the rewriter is the composition of
the attribute pass, the `url(` pass, and the base injection; the attribute
pass prefixes `/t/<tid>` onto every `src`/`href`/`action`/`content`/
`data-*` attribute value starting with a single `/` and refuses
protocol-relative `//` values; the `url(` pass does the same for CSS
`url(/...)` references; the base injection puts
`<base href="/t/<tid>/">` immediately after the first `<head[^>]*>` match
(the opening `<head>` tag whenever no earlier tag name begins with
`head`); and on inputs where neither rewrite pattern matches the output is
the input with only the base injection (exactly the input when no
`<head[^>]*>` occurs either). -/
theorem rewriteHtml_spec (tid : Str) :
    (∀ html, rewriteHtml html tid =
      injectBase tid (rewriteUrls tid (rewriteAttrs tid html))) ∧
    (∀ p name rest (q : Char), AttrName name → (q = '"' ∨ q = '\'') →
      rest.head? ≠ some '/' →
      noMatchIn (attrMatcher (tunnelBase tid)) p (name ++ '=' :: q :: '/' :: rest) = true →
      rewriteAttrs tid (p ++ (name ++ '=' :: q :: '/' :: rest)) =
        p ++ (name ++ '=' :: q :: (tunnelBase tid ++ ['/'])) ++ rewriteAttrs tid rest) ∧
    (∀ name rest (q : Char), AttrName name → (q = '"' ∨ q = '\'') →
      matchAt (attrMatcher (tunnelBase tid)) (name ++ '=' :: q :: '/' :: '/' :: rest) = none) ∧
    (∀ p rest, rest.head? ≠ some '/' →
      noMatchIn (urlMatcher (tunnelBase tid)) p (("url(/".data) ++ rest) = true →
      rewriteUrls tid (p ++ (("url(/".data) ++ rest)) =
        p ++ (("url(".data) ++ tunnelBase tid ++ ['/']) ++ rewriteUrls tid rest) ∧
    (∀ rest, matchAt (urlMatcher (tunnelBase tid)) (("url(//".data) ++ rest) = none) ∧
    (∀ p (h e a d : Char) mid rest, h.toLower = 'h' → e.toLower = 'e' →
      a.toLower = 'a' → d.toLower = 'd' → (∀ x ∈ mid, x ≠ '>') →
      noMatchIn (headMatcher (tunnelBase tid)) p
        ('<' :: h :: e :: a :: d :: (mid ++ '>' :: rest)) = true →
      injectBase tid (p ++ ('<' :: h :: e :: a :: d :: (mid ++ '>' :: rest))) =
        p ++ ('<' :: h :: e :: a :: d :: mid ++ '>' ::
          (("\n  <base href=\"".data) ++ tunnelBase tid ++ ("/\">".data))) ++ rest) ∧
    (∀ html, noMatchIn (attrMatcher (tunnelBase tid)) html [] = true →
      noMatchIn (urlMatcher (tunnelBase tid)) html [] = true →
      rewriteHtml html tid = injectBase tid html) ∧
    (∀ html, noMatchIn (headMatcher (tunnelBase tid)) html [] = true →
      injectBase tid html = html) := by
  refine ⟨fun _ => rfl, ?_, ?_, ?_, ?_, ?_, ?_, ?_⟩
  · intro p name rest q hname hq hr hfree
    have hmatch := attrMatcher_pos (tunnelBase tid) hname hq hr
    have hx : name ++ ['=', q, '/'] ≠ [] := by
      intro hc
      exact attrName_ne_nil hname (List.append_eq_nil.mp hc).1
    have hlen : (name ++ ['=', q, '/']).length - 1 = name.length + 2 := by
      simp
    have hassoc : (name ++ ['=', q, '/']) ++ rest = name ++ '=' :: q :: '/' :: rest := by
      simp
    rw [rewriteAttrs, noMatchIn_gsub hfree, ← hassoc,
      gsub_match_head hx (by rw [hassoc, hlen, hmatch]), rewriteAttrs]
    simp
  · intro name rest q hname hq
    exact attrMatcher_protocol_relative (tunnelBase tid) hname rest
  · intro p rest hr hfree
    have hmatch := urlMatcher_pos (tunnelBase tid) hr
    have hx : ("url(/".data) ≠ ([] : Str) := by decide
    rw [rewriteUrls, noMatchIn_gsub hfree,
      gsub_match_head hx (by rw [hmatch]; rfl), rewriteUrls]
    simp
  · intro rest
    exact urlMatcher_protocol_relative (tunnelBase tid) rest
  · intro p h e a d mid rest hh he ha hd hm hfree
    have hmatch := headMatcher_pos (tunnelBase tid) hh he ha hd hm rest
    have hx : ('<' :: h :: e :: a :: d :: mid ++ ['>']) ≠ ([] : Str) := by simp
    have hassoc : ('<' :: h :: e :: a :: d :: mid ++ ['>']) ++ rest =
        '<' :: h :: e :: a :: d :: (mid ++ '>' :: rest) := by simp
    have hlen : ('<' :: h :: e :: a :: d :: mid ++ ['>']).length - 1 = 5 + mid.length := by
      simp
      omega
    rw [injectBase, noMatchIn_replaceFirst hfree, ← hassoc,
      replaceFirst_match_head hx (by rw [hassoc, hlen, hmatch])]
    simp
  · intro html hattr hurl
    rw [rewriteHtml, rewriteAttrs, gsub_all_free hattr, rewriteUrls,
      gsub_all_free hurl]
  · intro html hhead
    rw [injectBase, replaceFirst_all_free hhead]

/-- Witness for C5 (amended), exercising each clause at concrete inputs. -/
theorem rewriteHtml_spec_witness :
    rewriteAttrs ("z".data) (("<img ".data) ++ (("src".data) ++ '=' :: '"' :: '/' :: ("a.png\">".data))) =
      ("<img ".data) ++ (("src".data) ++ '=' :: '"' :: (tunnelBase ("z".data) ++ ['/'])) ++
        rewriteAttrs ("z".data) ("a.png\">".data) ∧
    matchAt (attrMatcher (tunnelBase ("z".data)))
      (("href".data) ++ '=' :: '"' :: '/' :: '/' :: ("cdn/x\"".data)) = none ∧
    rewriteUrls ("z".data) (("body ".data) ++ (("url(/".data) ++ ("a.css)".data))) =
      ("body ".data) ++ (("url(".data) ++ tunnelBase ("z".data) ++ ['/']) ++
        rewriteUrls ("z".data) ("a.css)".data) ∧
    injectBase ("z".data) (("x".data) ++ ('<' :: 'h' :: 'e' :: 'a' :: 'd' :: (([] : Str) ++ '>' :: ("ok".data)))) =
      ("x".data) ++ ('<' :: 'h' :: 'e' :: 'a' :: 'd' :: ([] : Str) ++ '>' ::
        (("\n  <base href=\"".data) ++ tunnelBase ("z".data) ++ ("/\">".data))) ++ ("ok".data) ∧
    rewriteHtml ("<p>plain</p>".data) ("z".data) = injectBase ("z".data) ("<p>plain</p>".data) ∧
    injectBase ("z".data) ("<p>plain</p>".data) = ("<p>plain</p>".data) := by
  have h := rewriteHtml_spec ("z".data)
  refine ⟨h.2.1 ("<img ".data) ("src".data) ("a.png\">".data) '"'
      (Or.inl (by decide)) (Or.inl rfl) (by decide) (by decide),
    h.2.2.1 ("href".data) ("cdn/x\"".data) '"' (Or.inl (by decide)) (Or.inl rfl),
    h.2.2.2.1 ("body ".data) ("a.css)".data) (by decide) (by decide),
    h.2.2.2.2.2.1 ("x".data) 'h' 'e' 'a' 'd' ([] : Str) ("ok".data)
      (by decide) (by decide) (by decide) (by decide) (by decide) (by decide),
    h.2.2.2.2.2.2.1 ("<p>plain</p>".data) (by decide) (by decide),
    h.2.2.2.2.2.2.2 ("<p>plain</p>".data) (by decide)⟩

end Rootlink
